import Mathlib

namespace PyTalk

/-!
# Verification of the `python_concurrency_talk` repository

Shallow embedding of the three source files:

* `fetch_urls.py` — sequential / process / thread strategies that fetch a
  batch of URLs and collect `(size, duration)` per URL into a Python dict;
* `async_fetch_urls.py` — cooperative-async variants on an asyncio event loop;
* `count_n_print.py` — a shared counter incremented by N threads under a
  counter lock, printing each value under a nested printer lock.

Python dicts are modelled as insertion-ordered association lists
(`dinsert` keeps the position of an existing key and overwrites its value,
otherwise appends — CPython semantics).  A deterministic fetch operation
is a pair of functions `op : String → Nat` (payload size) and
`dur : String → τ` (elapsed time, an opaque type since every claim ignores
timing).  Nondeterministic completion order (process queue drain order,
`imap_unordered` yield order, iteration order of an asyncio `done` set)
is exposed as an explicit list parameter, constrained to a permutation of
the batch in the theorems.
-/

/-- Insertion-ordered association list standing for a Python dict with
`String` keys and `(payloadSize, elapsed)` values. -/
abbrev Dict (τ : Type) := List (String × Nat × τ)

/-- `result[url] = size, duration` on a Python dict: overwrite in place if the
key is present (keeping its position), otherwise append at the end. -/
def dinsert {τ : Type} : Dict τ → String → Nat × τ → Dict τ
  | [], k, v => [(k, v)]
  | (k', v') :: rest, k, v =>
    if k' = k then (k', v) :: rest else (k', v') :: dinsert rest k v

/-- Dict lookup. -/
def dlookup {τ : Type} : Dict τ → String → Option (Nat × τ)
  | [], _ => none
  | (k', v') :: rest, k => if k' = k then some v' else dlookup rest k

/-- The keys of a dict in iteration order. -/
def dkeys {τ : Type} (m : Dict τ) : List String := m.map Prod.fst

/-- The payload-size component of a lookup; every claim compares results
"ignoring timing fields", i.e. through this projection. -/
def payload {τ : Type} (m : Dict τ) (k : String) : Option Nat :=
  (dlookup m k).map Prod.fst

/-- `fetch_site(url)` with a deterministic stub operation: returns
`(url, size, duration)` exactly as the Python function does. -/
def fetch_site {τ : Type} (op : String → Nat) (dur : String → τ) (url : String) :
    String × Nat × τ :=
  (url, op url, dur url)

/-- The module-level `sites` list of `fetch_urls.py`. -/
def sites : List String :=
  ["https://www.python.org/", "https://pypi.org/", "https://conda.io/",
   "http://www.jython.org/", "http://ironpython.net/", "https://pypy.org/",
   "https://github.com/", "https://stackoverflow.com/"]

/-- `fetch_urls.sequential`: iterate the batch in input order, fetch
synchronously, insert each result before starting the next.  The global
`sites` list is passed explicitly as the batch. -/
def sequential {τ : Type} (batch : List String) (op : String → Nat)
    (dur : String → τ) : Dict τ :=
  batch.foldl
    (fun result url =>
      let r := fetch_site op dur url
      dinsert result r.1 r.2) []

/-- `fetch_urls.multiprocess`: one process per URL, each puts its
`fetch_site` triple on a shared queue; the parent joins all workers and then
drains the queue.  Results arrive in nondeterministic completion order, so
the drained queue contents are an explicit parameter `queue`; theorems
constrain it to a permutation of the batch's results. -/
def multiprocess {τ : Type} (queue : List (String × Nat × τ)) : Dict τ :=
  queue.foldl (fun result t => dinsert result t.1 t.2) []

/-- `fetch_urls.multiprocess2`: `Pool.imap_unordered` yields results in
nondeterministic completion order `arrival`; the loop inserts them as they
come. -/
def multiprocess2 {τ : Type} (arrival : List String) (op : String → Nat)
    (dur : String → τ) : Dict τ :=
  arrival.foldl
    (fun result url =>
      let r := fetch_site op dur url
      dinsert result r.1 r.2) []

/-- `fetch_urls.multiprocess3`: `ProcessPoolExecutor.map` yields results in
submission order, so the loop inserts in batch order. -/
def multiprocess3 {τ : Type} (batch : List String) (op : String → Nat)
    (dur : String → τ) : Dict τ :=
  batch.foldl
    (fun result url =>
      let r := fetch_site op dur url
      dinsert result r.1 r.2) []

/-- `fetch_urls.multithread`: `ThreadPoolExecutor.map` also yields results in
submission order. -/
def multithread {τ : Type} (batch : List String) (op : String → Nat)
    (dur : String → τ) : Dict τ :=
  batch.foldl
    (fun result url =>
      let r := fetch_site op dur url
      dinsert result r.1 r.2) []

/-- `async_fetch_urls.get_result`: convert finished tasks to a dict.  The
argument is a Python *set* of tasks, so its iteration order is arbitrary;
the list parameter carries one such order. -/
def get_result {τ : Type} (tasks : List (String × Nat × τ)) : Dict τ :=
  tasks.foldl (fun result t => dinsert result t.1 t.2) []

/-- `async_fetch_urls.coroutine`: one task per URL, `asyncio.wait` completes
them all, `get_result` iterates the `done` set in arbitrary order `order`. -/
def coroutine {τ : Type} (order : List String) (op : String → Nat)
    (dur : String → τ) : Dict τ :=
  get_result (order.map (fetch_site op dur))

/-- `async_fetch_urls.coroutine2`: same as `coroutine`, building the tasks
with `map(fetch_site, sites)` instead of an explicit loop. -/
def coroutine2 {τ : Type} (order : List String) (op : String → Nat)
    (dur : String → τ) : Dict τ :=
  get_result (order.map (fetch_site op dur))

/-- Key list of a fold of Python-dict inserts: first-occurrence order of the
inserted keys (what `dict.keys()` shows after the loop). -/
def pyKeys (batch : List String) : List String :=
  batch.foldl (fun ks k => if k ∈ ks then ks else ks ++ [k]) []

/-! ## Basic dict lemmas -/

/-- The common fold underlying every strategy loop: insert deterministic
fetch results for each URL of `l` into the accumulator dict `m`. -/
def dfold {τ : Type} (op : String → Nat) (dur : String → τ)
    (l : List String) (m : Dict τ) : Dict τ :=
  l.foldl (fun result url => dinsert result url (op url, dur url)) m

/-! ## Failure model

A fetch operation that may raise is `op? : String → Option Nat` (`none` =
the operation raises).  An uncaught Python exception propagating out of a
strategy is `Except.error ()`; a returned dict is `Except.ok`. -/

/-- The strategy loops under a fallible operation: raise (discarding the
partial dict, as a propagating Python exception does) at the first failing
URL in iteration order. -/
def foldE {τ : Type} (op? : String → Option Nat) (dur : String → τ) :
    List String → Dict τ → Except Unit (Dict τ)
  | [], m => .ok m
  | url :: rest, m =>
    match op? url with
    | none => .error ()
    | some size => foldE op? dur rest (dinsert m url (size, dur url))

/-- `sequential` under a fallible fetch: the first failing URL (in batch
order) raises out of the loop. -/
def sequentialE {τ : Type} (batch : List String) (op? : String → Option Nat)
    (dur : String → τ) : Except Unit (Dict τ) :=
  foldE op? dur batch []

/-- `multithread` under a fallible fetch: `ThreadPoolExecutor.map` re-raises
the first failing task in submission order while the caller iterates. -/
def multithreadE {τ : Type} (batch : List String) (op? : String → Option Nat)
    (dur : String → τ) : Except Unit (Dict τ) :=
  foldE op? dur batch []

/-- `multiprocess3` under a fallible fetch: `ProcessPoolExecutor.map`
re-raises the first failing task in submission order. -/
def multiprocess3E {τ : Type} (batch : List String) (op? : String → Option Nat)
    (dur : String → τ) : Except Unit (Dict τ) :=
  foldE op? dur batch []

/-- `multiprocess2` under a fallible fetch: `Pool.imap_unordered` re-raises a
failing task's exception at its position in completion order `arrival`. -/
def multiprocess2E {τ : Type} (arrival : List String) (op? : String → Option Nat)
    (dur : String → τ) : Except Unit (Dict τ) :=
  foldE op? dur arrival []

/-- `coroutine`/`coroutine2` under a fallible fetch: `asyncio.wait` gathers
all tasks, then `get_result` calls `t.result()`, which re-raises the first
failed task in the `done` set's iteration order `order`. -/
def coroutineE {τ : Type} (order : List String) (op? : String → Option Nat)
    (dur : String → τ) : Except Unit (Dict τ) :=
  foldE op? dur order []

/-- `multiprocess` under a fallible fetch: a child whose `fetch_site` raises
dies without putting anything on the queue; the parent joins, drains the
queue of the successful results only, and returns the partial dict without
any error.  `queue` is the drained contents (the successful tasks' triples,
in completion order). -/
def multiprocessE {τ : Type} (queue : List (String × Nat × τ)) :
    Except Unit (Dict τ) :=
  .ok (multiprocess queue)

def isErr {τ : Type} : Except Unit (Dict τ) → Bool
  | .error _ => true
  | .ok _ => false

/-! ## Event-loop model for the async strategies

The process-global asyncio event loop is the external collaborator of
`coroutine`/`coroutine2`.  Its contract, as exercised by the source:
`asyncio.get_event_loop()` returns the thread's current loop;
`loop.run_until_complete(...)` drives the tasks to completion on an open
loop and raises `RuntimeError` on a closed one; `loop.close()` closes the
loop for good. -/

inductive LoopState where
  | fresh : LoopState
  | closed : LoopState
deriving DecidableEq, Repr

def get_event_loop (ls : LoopState) : LoopState := ls

def run_until_complete {α : Type} (ls : LoopState) (res : α) : Except Unit α :=
  match ls with
  | .fresh => .ok res
  | .closed => .error ()

def loop_close (_ : LoopState) : LoopState := .closed

/-- `async_fetch_urls.coroutine` with the global event loop made explicit:
get the loop, run all tasks to completion, close the loop, convert the
`done` set.  If `run_until_complete` raises, the exception propagates and
`loop.close()` is never reached. -/
def coroutineS {τ : Type} (order : List String) (op : String → Nat)
    (dur : String → τ) (ls : LoopState) : Except Unit (Dict τ) × LoopState :=
  let loop := get_event_loop ls
  match run_until_complete loop (order.map (fetch_site op dur)) with
  | .error e => (.error e, loop)
  | .ok tasks => (.ok (get_result tasks), loop_close loop)

/-- `async_fetch_urls.coroutine2` with the global event loop made explicit. -/
def coroutine2S {τ : Type} (order : List String) (op : String → Nat)
    (dur : String → τ) (ls : LoopState) : Except Unit (Dict τ) × LoopState :=
  let loop := get_event_loop ls
  match run_until_complete loop (order.map (fetch_site op dur)) with
  | .error e => (.error e, loop)
  | .ok tasks => (.ok (get_result tasks), loop_close loop)

/-! ## The shared-counter demo (`count_n_print.py`)

An interleaving semantics for the module.  The main thread prints
"starting threads" under the printer lock, starts `n` worker threads, joins
them all, then prints "done!" under the printer lock.  Each worker acquires
the counter lock, increments the counter (modelled fine-grained as a load
followed by a store, so that losing updates is expressible), and — still
holding the counter lock — acquires the printer lock, prints
`f'counter = {counter}'` (modelled as two separate output tokens, so that
interleaved partial lines are expressible), releases the printer lock and
then the counter lock.

Workers are symmetric and anonymous: the state keeps the number still
waiting to run, the one worker currently holding the counter lock (with its
program position and its loaded register), and the number already finished.
A schedule is a list of actions; `crun` executes it, refusing any action
whose thread is blocked (lock held elsewhere, join barrier not yet passed),
so exactly the real interleavings are representable. -/

/-- One token of console output.  A worker's print statement is split into
its text part and its value part so that atomicity of a printed line is a
provable property, not a modelling assumption. -/
inductive Tok where
  | start : Tok
  | text : Tok
  | val : Nat → Tok
  | done : Tok
deriving DecidableEq, Repr

/-- The worker currently inside the counter-lock critical section:
its position in the worker body and its loaded copy of the counter.

Positions: 1 = about to load the counter, 2 = about to store `reg + 1`,
3 = about to acquire the printer lock, 4 = about to print the text part,
5 = about to print the value part, 6 = about to release the printer lock,
7 = about to release the counter lock. -/
structure Cs where
  pos : Nat
  reg : Nat
deriving DecidableEq, Repr

/-- Global state of the demo. `waiting` workers have not run yet, `cs` is
the worker holding the counter lock (if any), `finished` workers have
terminated.  `mainPc`: 0 = about to acquire the printer lock, 1 = about to
print "starting threads", 2 = about to release the printer lock, 3 = threads
started, joining, 4 = about to print "done!" (printer lock re-acquired),
5 = about to release the printer lock, 6 = terminated. -/
structure CState where
  waiting : Nat
  cs : Option Cs
  finished : Nat
  counter : Nat
  mainPc : Nat
  output : List Tok
deriving DecidableEq, Repr

/-- A scheduling action: let a not-yet-started worker acquire the counter
lock, let the worker inside the critical section take its next step, or let
the main thread take its next step. -/
inductive Act where
  | wacq : Act
  | wstep : Act
  | mstep : Act
deriving DecidableEq, Repr

/-- Initial state with `n` workers: counter 0, nothing printed, main thread
at the top of the module. -/
def cinit (n : Nat) : CState :=
  { waiting := n, cs := none, finished := 0, counter := 0, mainPc := 0,
    output := [] }

/-- One step of the interleaving semantics; `none` when the scheduled
thread is blocked or already terminated. -/
def cstep (s : CState) : Act → Option CState
  | .wacq =>
    -- a worker thread can only run once main has started it (mainPc ≥ 3),
    -- and acquiring the counter lock blocks while another worker holds it
    if 3 ≤ s.mainPc ∧ 0 < s.waiting ∧ s.cs = none then
      some { s with waiting := s.waiting - 1, cs := some ⟨1, 0⟩ }
    else none
  | .wstep =>
    match s.cs with
    | none => none
    | some c =>
      if c.pos = 1 then some { s with cs := some ⟨2, s.counter⟩ }
      else if c.pos = 2 then
        some { s with counter := c.reg + 1, cs := some ⟨3, c.reg⟩ }
      else if c.pos = 3 then
        -- acquiring the printer lock blocks while main holds it
        if s.mainPc = 1 ∨ s.mainPc = 4 then none
        else some { s with cs := some ⟨4, c.reg⟩ }
      else if c.pos = 4 then
        some { s with output := s.output ++ [Tok.text], cs := some ⟨5, c.reg⟩ }
      else if c.pos = 5 then
        some { s with output := s.output ++ [Tok.val s.counter],
                      cs := some ⟨6, c.reg⟩ }
      else if c.pos = 6 then some { s with cs := some ⟨7, c.reg⟩ }
      else if c.pos = 7 then
        some { s with cs := none, finished := s.finished + 1 }
      else none
  | .mstep =>
    if s.mainPc = 0 then
      -- acquiring the printer lock blocks while a worker holds it
      match s.cs with
      | some c => if 4 ≤ c.pos ∧ c.pos ≤ 6 then none
                  else some { s with mainPc := 1 }
      | none => some { s with mainPc := 1 }
    else if s.mainPc = 1 then
      some { s with output := s.output ++ [Tok.start], mainPc := 2 }
    else if s.mainPc = 2 then some { s with mainPc := 3 }
    else if s.mainPc = 3 then
      -- `for t in threads: t.join()` completes only once every worker has
      -- terminated; then the printer lock is acquired (free, cs = none)
      if s.waiting = 0 ∧ s.cs = none then some { s with mainPc := 4 }
      else none
    else if s.mainPc = 4 then
      some { s with output := s.output ++ [Tok.done], mainPc := 5 }
    else if s.mainPc = 5 then some { s with mainPc := 6 }
    else none

/-- Execute a schedule from a state; `none` if any action is blocked. -/
def crun (s : CState) : List Act → Option CState
  | [] => some s
  | a :: rest => (cstep s a).bind fun s' => crun s' rest

/-- The console output of a completed demo run with final counter value
`k`: the printed line for each value `1, …, k` in order, each line being its
text token followed by its value token. -/
def lines : Nat → List Tok
  | 0 => []
  | k + 1 => lines k ++ [Tok.text, Tok.val (k + 1)]

/-- 1 if a worker currently holds the counter lock. -/
def csCount : Option Cs → Nat
  | none => 0
  | some _ => 1

/-- 1 if the worker in the critical section has already stored its
incremented value. -/
def storeCount : Option Cs → Nat
  | none => 0
  | some c => if 3 ≤ c.pos then 1 else 0

/-- 1 if the worker in the critical section has already printed its value
token. -/
def valCount : Option Cs → Nat
  | none => 0
  | some c => if 6 ≤ c.pos then 1 else 0

/-- The half-printed line of the worker in the critical section: its text
token when the value token is still pending. -/
def printing : Option Cs → List Tok
  | none => []
  | some c => if c.pos = 5 then [Tok.text] else []

/-- The inductive invariant of the demo: lock discipline, counter
accounting, and the exact shape of the console output. -/
structure CInv (n : Nat) (s : CState) : Prop where
  total : s.waiting + csCount s.cs + s.finished = n
  posRange : ∀ c, s.cs = some c → 1 ≤ c.pos ∧ c.pos ≤ 7
  counterEq : s.counter = s.finished + storeCount s.cs
  regEq : ∀ c, s.cs = some c → c.pos = 2 → c.reg = s.counter
  mainRange : s.mainPc ≤ 6
  early : s.mainPc < 3 → s.cs = none ∧ s.finished = 0
  late : 4 ≤ s.mainPc → s.cs = none ∧ s.waiting = 0
  outputEq : s.output =
    (if 2 ≤ s.mainPc then [Tok.start] else []) ++
      lines (s.finished + valCount s.cs) ++ printing s.cs ++
      (if 5 ≤ s.mainPc then [Tok.done] else [])

/-! ## Result-map equivalence up to timing and iteration order -/

/-- Two result maps are set-equal ignoring timing: the same set of keys and
the same payload size for every key; iteration order and the elapsed-time
components are unconstrained (the maps may even store timings of different
types). -/
def setEqv {τ₁ τ₂ : Type} (m₁ : Dict τ₁) (m₂ : Dict τ₂) : Prop :=
  (∀ k, k ∈ dkeys m₁ ↔ k ∈ dkeys m₂) ∧ (∀ k, payload m₁ k = payload m₂ k)

/-! ## Concrete inputs used by the witnesses and counterexamples -/

/-- The spec's deterministic stub fetch operation, which returns
`(len(key), 0.0)`: payload size is the key's length. -/
def stubOp : String → Nat := String.length

/-- The `0.0` elapsed-time component of the stub operation. -/
def zeroDur : String → Nat := fun _ => 0

/-- A second, different timing function, standing for the nondeterministic
elapsed times of a separate run. -/
def otherDur : String → Nat := fun k => k.length + 7

/-- A fallible stub operation that raises on key `"a"` and succeeds with the
key's length elsewhere. -/
def opf : String → Option Nat := fun k => if k = "a" then none else some k.length

/-- One worker's full schedule through the counter demo: acquire the counter
lock, then its seven remaining micro-steps. -/
def workerRound : List Act :=
  [Act.wacq, Act.wstep, Act.wstep, Act.wstep, Act.wstep, Act.wstep, Act.wstep,
   Act.wstep]

/-- A complete schedule of the `N = 10` demo: main prints the start message
and starts the workers, the ten workers run one after another, main joins
and prints the final message. -/
def demoSched : List Act :=
  [Act.mstep, Act.mstep, Act.mstep] ++ (List.replicate 10 workerRound).flatten ++
    [Act.mstep, Act.mstep, Act.mstep]

/-- The final state of the demo under `demoSched`. -/
def demoFinal : CState := (crun (cinit 10) demoSched).getD (cinit 10)

/-! ## The claims -/

theorem sequential_eq_dfold {τ : Type} (batch : List String) (op : String → Nat)
    (dur : String → τ) : sequential batch op dur = dfold op dur batch [] := rfl

theorem multiprocess2_eq_dfold {τ : Type} (arrival : List String)
    (op : String → Nat) (dur : String → τ) :
    multiprocess2 arrival op dur = dfold op dur arrival [] := rfl

theorem multiprocess3_eq_dfold {τ : Type} (batch : List String)
    (op : String → Nat) (dur : String → τ) :
    multiprocess3 batch op dur = dfold op dur batch [] := rfl

theorem multithread_eq_dfold {τ : Type} (batch : List String)
    (op : String → Nat) (dur : String → τ) :
    multithread batch op dur = dfold op dur batch [] := rfl

theorem multiprocess_map_eq_dfold {τ : Type} (arrival : List String)
    (op : String → Nat) (dur : String → τ) :
    multiprocess (arrival.map (fetch_site op dur)) = dfold op dur arrival [] := by
  unfold multiprocess dfold
  rw [List.foldl_map]
  rfl

theorem coroutine_eq_dfold {τ : Type} (order : List String)
    (op : String → Nat) (dur : String → τ) :
    coroutine order op dur = dfold op dur order [] := by
  unfold coroutine get_result dfold
  rw [List.foldl_map]
  rfl

theorem coroutine2_eq_dfold {τ : Type} (order : List String)
    (op : String → Nat) (dur : String → τ) :
    coroutine2 order op dur = dfold op dur order [] := by
  unfold coroutine2 get_result dfold
  rw [List.foldl_map]
  rfl

theorem dlookup_dinsert {τ : Type} (m : Dict τ) (k k' : String) (v : Nat × τ) :
    dlookup (dinsert m k v) k' = if k = k' then some v else dlookup m k' := by
  induction m with
  | nil => simp [dinsert, dlookup]
  | cons hd tl ih =>
    obtain ⟨k₀, v₀⟩ := hd
    by_cases h₀ : k₀ = k
    · subst h₀
      by_cases h₁ : k₀ = k' <;> simp [dinsert, dlookup, h₁]
    · by_cases h₁ : k₀ = k'
      · subst h₁
        have h₂ : ¬k₀ = k := h₀
        have h₃ : ¬k = k₀ := fun h => h₀ h.symm
        simp [dinsert, dlookup, h₂, h₃]
      · simp [dinsert, dlookup, h₀, h₁, ih]

/-- Lookup after folding deterministic fetch results over a list of URLs:
a URL that occurs in the list maps to its (deterministic) fetch value,
regardless of insertion order or duplicates. -/
theorem dlookup_dfold {τ : Type} (op : String → Nat) (dur : String → τ)
    (l : List String) (m : Dict τ) (k : String) :
    dlookup (dfold op dur l m) k =
      if k ∈ l then some (op k, dur k) else dlookup m k := by
  induction l generalizing m with
  | nil => simp [dfold]
  | cons x xs ih =>
    rw [dfold, List.foldl_cons]
    have step : (xs.foldl (fun result url => dinsert result url (op url, dur url))
        (dinsert m x (op x, dur x))) = dfold op dur xs (dinsert m x (op x, dur x)) := rfl
    rw [step, ih]
    by_cases hx : k = x
    · subst hx
      by_cases hxs : k ∈ xs <;> simp [hxs, dlookup_dinsert]
    · have hx' : ¬x = k := fun h => hx h.symm
      by_cases hxs : k ∈ xs <;> simp [hxs, hx, hx', dlookup_dinsert]

theorem dkeys_dinsert {τ : Type} (m : Dict τ) (k : String) (v : Nat × τ) :
    dkeys (dinsert m k v) = if k ∈ dkeys m then dkeys m else dkeys m ++ [k] := by
  induction m with
  | nil => simp [dinsert, dkeys]
  | cons hd tl ih =>
    obtain ⟨k₀, v₀⟩ := hd
    by_cases h₀ : k₀ = k
    · subst h₀; simp [dinsert, dkeys]
    · have h₀' : ¬k = k₀ := fun h => h₀ h.symm
      simp only [dinsert, if_neg h₀, dkeys, List.map_cons] at ih ⊢
      rw [ih]
      by_cases hmem : k ∈ tl.map Prod.fst <;>
        simp [hmem, List.mem_cons, h₀']

/-- The keys of the fold are the first-occurrence dedup of the URL list,
appended to the accumulator's keys. -/
theorem dkeys_dfold {τ : Type} (op : String → Nat) (dur : String → τ)
    (l : List String) (m : Dict τ) :
    dkeys (dfold op dur l m) =
      l.foldl (fun ks k => if k ∈ ks then ks else ks ++ [k]) (dkeys m) := by
  induction l generalizing m with
  | nil => simp [dfold]
  | cons x xs ih =>
    rw [dfold, List.foldl_cons]
    have step : (xs.foldl (fun result url => dinsert result url (op url, dur url))
        (dinsert m x (op x, dur x))) = dfold op dur xs (dinsert m x (op x, dur x)) := rfl
    rw [step, ih, List.foldl_cons, dkeys_dinsert]

theorem pyKeys_aux (l : List String) : ∀ ks : List String, l.Nodup →
    (∀ u ∈ l, u ∉ ks) →
    l.foldl (fun ks k => if k ∈ ks then ks else ks ++ [k]) ks = ks ++ l := by
  induction l with
  | nil => intro ks _ _; simp
  | cons x xs ih =>
    intro ks hnd hdisj
    have hx : x ∉ ks := hdisj x (by simp)
    simp only [List.foldl_cons, if_neg hx]
    rw [ih (ks ++ [x]) (List.nodup_cons.mp hnd).2]
    · simp
    · intro u hu
      simp only [List.mem_append, List.mem_singleton]
      rintro (h₁ | h₁)
      · exact hdisj u (by simp [hu]) h₁
      · subst h₁
        exact (List.nodup_cons.mp hnd).1 hu

theorem pyKeys_of_nodup (l : List String) (h : l.Nodup) : pyKeys l = l := by
  have := pyKeys_aux l [] h (by simp)
  simpa [pyKeys] using this

theorem dlookup_eq_none_iff {τ : Type} (m : Dict τ) (k : String) :
    dlookup m k = none ↔ k ∉ dkeys m := by
  induction m with
  | nil => simp [dlookup, dkeys]
  | cons hd tl ih =>
    obtain ⟨k₀, v₀⟩ := hd
    by_cases h₀ : k₀ = k
    · subst h₀; simp [dlookup, dkeys]
    · have h₀' : ¬k = k₀ := fun h => h₀ h.symm
      simp [dlookup, dkeys, h₀, h₀', ih]

theorem foldE_error {τ : Type} (op? : String → Option Nat) (dur : String → τ)
    (l : List String) (u : String) (hu : u ∈ l) (hf : op? u = none) :
    ∀ m : Dict τ, foldE op? dur l m = .error () := by
  induction l with
  | nil => cases hu
  | cons x xs ih =>
    intro m
    rcases List.mem_cons.mp hu with h | h
    · subst h
      simp [foldE, hf]
    · cases hx : op? x with
      | none => simp [foldE, hx]
      | some size => simp [foldE, hx, ih h]

theorem foldE_ok {τ : Type} (op? : String → Option Nat) (dur : String → τ)
    (l : List String) (hl : ∀ u ∈ l, (op? u).isSome) :
    ∀ m : Dict τ,
      foldE op? dur l m = .ok (dfold (fun u => (op? u).getD 0) dur l m) := by
  induction l with
  | nil => intro m; simp [foldE, dfold]
  | cons x xs ih =>
    intro m
    cases hx : op? x with
    | none =>
      exact absurd (hl x (by simp)) (by simp [hx])
    | some size =>
      simp only [foldE, hx]
      rw [ih (fun u hu => hl u (by simp [hu]))]
      simp [dfold, hx]

theorem cinit_inv (n : Nat) : CInv n (cinit n) := by
  refine ⟨?_, ?_, ?_, ?_, ?_, ?_, ?_, ?_⟩ <;>
    simp [cinit, csCount, storeCount, valCount, printing, lines]

theorem cstep_inv {n : Nat} {s s' : CState} {a : Act} (hI : CInv n s)
    (h : cstep s a = some s') : CInv n s' := by
  obtain ⟨htot, hpos, hcnt, hreg, hmain, hearly, hlate, hout⟩ := hI
  cases a with
  | wacq =>
    rw [cstep] at h
    split at h
    · rename_i hc
      obtain ⟨h3, hw, hcs⟩ := hc
      injection h with h
      subst h
      rw [hcs] at htot hcnt hout
      simp only [csCount, storeCount, valCount, printing] at htot hcnt hout
      refine ⟨?_, ?_, ?_, ?_, ?_, ?_, ?_, ?_⟩ <;> dsimp only
      · simp only [csCount]; omega
      · intro c hc'; injection hc' with hc'; subst hc'; simp
      · simp only [storeCount]
        simp only [show ¬(3 ≤ 1) by decide, if_false]
        omega
      · intro c hc' hp2; injection hc' with hc'; subst hc'; simp at hp2
      · exact hmain
      · intro hlt; omega
      · intro hge
        have := (hlate hge).2
        omega
      · simpa [valCount, printing] using hout
    · exact absurd h (by simp)
  | wstep =>
    rw [cstep] at h
    rcases hcs : s.cs with _ | c
    · rw [hcs] at h; exact absurd h (by simp)
    · rw [hcs] at h
      obtain ⟨hp1, hp7⟩ := hpos c hcs
      have hlt4 : ¬4 ≤ s.mainPc := fun hh => by
        have := (hlate hh).1; rw [hcs] at this; exact Option.noConfusion this
      have hge3 : 3 ≤ s.mainPc := by
        by_contra hh
        have := (hearly (by omega)).1; rw [hcs] at this
        exact Option.noConfusion this
      have hd5 : ¬5 ≤ s.mainPc := by omega
      rw [hcs] at htot hcnt hout
      rw [if_neg hd5] at hout
      obtain ⟨p, r⟩ := c
      simp only at h hp1 hp7
      simp only [csCount] at htot
      interval_cases p
      · -- load: reg := counter
        norm_num at h
        subst h
        simp only [storeCount, valCount, printing,
          show ¬(3 ≤ 1) by decide, show ¬(6 ≤ 1) by decide,
          show (1 : Nat) ≠ 5 by decide, if_false] at hcnt hout
        refine ⟨?_, ?_, ?_, ?_, ?_, ?_, ?_, ?_⟩ <;> dsimp only
        · simp only [csCount]; omega
        · intro c hc'; injection hc' with hc'; subst hc'; simp
        · simpa [storeCount] using hcnt
        · intro c hc' hp2; injection hc' with hc'; subst hc'; rfl
        · exact hmain
        · intro hlt; omega
        · intro hge; omega
        · rw [if_neg hd5]
          simpa [valCount, printing] using hout
      · -- store: counter := reg + 1
        norm_num at h
        subst h
        have hr : r = s.counter := hreg ⟨2, r⟩ hcs rfl
        simp only [storeCount, valCount, printing,
          show ¬(3 ≤ 2) by decide, show ¬(6 ≤ 2) by decide,
          show (2 : Nat) ≠ 5 by decide, if_false] at hcnt hout
        refine ⟨?_, ?_, ?_, ?_, ?_, ?_, ?_, ?_⟩ <;> dsimp only
        · simp only [csCount]; omega
        · intro c hc'; injection hc' with hc'; subst hc'; simp
        · simp only [storeCount, show (3 ≤ 3) by decide, if_true]
          omega
        · intro c hc' hp2; injection hc' with hc'; subst hc'; simp at hp2
        · exact hmain
        · intro hlt; omega
        · intro hge; omega
        · rw [if_neg hd5]
          simpa [valCount, printing] using hout
      · -- acquire the printer lock
        norm_num at h
        obtain ⟨hmp, h⟩ := h
        subst h
        simp only [storeCount, valCount, printing,
          show (3 ≤ 3) by decide, show ¬(6 ≤ 3) by decide,
          show (3 : Nat) ≠ 5 by decide, if_false, if_true] at hcnt hout
        refine ⟨?_, ?_, ?_, ?_, ?_, ?_, ?_, ?_⟩ <;> dsimp only
        · simp only [csCount]; omega
        · intro c hc'; injection hc' with hc'; subst hc'; simp
        · simp only [storeCount, show (3 ≤ 4) by decide, if_true]
          omega
        · intro c hc' hp2; injection hc' with hc'; subst hc'; simp at hp2
        · exact hmain
        · intro hlt; omega
        · intro hge; omega
        · rw [if_neg hd5]
          simpa [valCount, printing] using hout
      · -- print the text part of the line
        norm_num at h
        subst h
        simp only [storeCount, valCount, printing,
          show (3 ≤ 4) by decide, show ¬(6 ≤ 4) by decide,
          show (4 : Nat) ≠ 5 by decide, if_false, if_true] at hcnt hout
        refine ⟨?_, ?_, ?_, ?_, ?_, ?_, ?_, ?_⟩ <;> dsimp only
        · simp only [csCount]; omega
        · intro c hc'; injection hc' with hc'; subst hc'; simp
        · simp only [storeCount, show (3 ≤ 5) by decide, if_true]
          omega
        · intro c hc' hp2; injection hc' with hc'; subst hc'; simp at hp2
        · exact hmain
        · intro hlt; omega
        · intro hge; omega
        · rw [if_neg hd5]
          simp only [valCount, printing, show ¬(6 ≤ 5) by decide,
            show (5 : Nat) = 5 by rfl, if_false, if_true]
          rw [hout]
          simp
      · -- print the value part of the line
        norm_num at h
        subst h
        simp only [storeCount, valCount, printing,
          show (3 ≤ 5) by decide, show ¬(6 ≤ 5) by decide,
          show (5 : Nat) = 5 by rfl, if_false, if_true] at hcnt hout
        refine ⟨?_, ?_, ?_, ?_, ?_, ?_, ?_, ?_⟩ <;> dsimp only
        · simp only [csCount]; omega
        · intro c hc'; injection hc' with hc'; subst hc'; simp
        · simp only [storeCount, show (3 ≤ 6) by decide, if_true]
          omega
        · intro c hc' hp2; injection hc' with hc'; subst hc'; simp at hp2
        · exact hmain
        · intro hlt; omega
        · intro hge; omega
        · rw [if_neg hd5]
          simp only [valCount, printing, show (6 ≤ 6) by decide,
            show (6 : Nat) ≠ 5 by decide, if_false, if_true]
          rw [hcnt, hout]
          simp [lines]
      · -- release the printer lock
        norm_num at h
        subst h
        simp only [storeCount, valCount, printing,
          show (3 ≤ 6) by decide, show (6 ≤ 6) by decide,
          show (6 : Nat) ≠ 5 by decide, if_false, if_true] at hcnt hout
        refine ⟨?_, ?_, ?_, ?_, ?_, ?_, ?_, ?_⟩ <;> dsimp only
        · simp only [csCount]; omega
        · intro c hc'; injection hc' with hc'; subst hc'; simp
        · simp only [storeCount, show (3 ≤ 7) by decide, if_true]
          omega
        · intro c hc' hp2; injection hc' with hc'; subst hc'; simp at hp2
        · exact hmain
        · intro hlt; omega
        · intro hge; omega
        · rw [if_neg hd5]
          simp only [valCount, printing, show (6 ≤ 7) by decide,
            show (7 : Nat) ≠ 5 by decide, if_false, if_true]
          simpa using hout
      · -- release the counter lock; the worker terminates
        norm_num at h
        subst h
        simp only [storeCount, valCount, printing,
          show (3 ≤ 7) by decide, show (6 ≤ 7) by decide,
          show (7 : Nat) ≠ 5 by decide, if_false, if_true] at hcnt hout
        refine ⟨?_, ?_, ?_, ?_, ?_, ?_, ?_, ?_⟩ <;> dsimp only
        · simp only [csCount]; omega
        · intro c hc'; exact absurd hc' (by simp)
        · simp only [storeCount]; omega
        · intro c hc'; exact absurd hc' (by simp)
        · exact hmain
        · intro hlt; omega
        · intro hge; omega
        · rw [if_neg hd5]
          simpa [valCount, printing] using hout
  | mstep =>
    rw [cstep] at h
    by_cases h0 : s.mainPc = 0
    · rw [if_pos h0] at h
      obtain ⟨hcse, hfin⟩ := hearly (by omega)
      rw [hcse] at h htot hcnt hout
      simp only [csCount, storeCount, valCount, printing] at htot hcnt hout
      simp only at h
      injection h with h
      subst h
      refine ⟨?_, ?_, ?_, ?_, ?_, ?_, ?_, ?_⟩ <;> dsimp only
      · simpa [csCount] using htot
      · intro c hc'; exact absurd hc' (by simp)
      · simpa [storeCount] using hcnt
      · intro c hc'; exact absurd hc' (by simp)
      · omega
      · intro _; exact ⟨rfl, hfin⟩
      · intro hge; omega
      · simp only [csCount, storeCount, valCount, printing]
        rw [hout]
        simp [h0]
    · rw [if_neg h0] at h
      by_cases h1 : s.mainPc = 1
      · rw [if_pos h1] at h
        obtain ⟨hcse, hfin⟩ := hearly (by omega)
        injection h with h
        subst h
        rw [hcse] at htot hcnt hout
        simp only [csCount, storeCount, valCount, printing] at htot hcnt hout
        refine ⟨?_, ?_, ?_, ?_, ?_, ?_, ?_, ?_⟩ <;> dsimp only
        · simpa [csCount, hcse] using htot
        · intro c hc'; rw [hcse] at hc'; exact absurd hc' (by simp)
        · simpa [storeCount, hcse] using hcnt
        · intro c hc'; rw [hcse] at hc'; exact absurd hc' (by simp)
        · omega
        · intro _; exact ⟨hcse, hfin⟩
        · intro hge; omega
        · rw [hcse]
          simp only [csCount, storeCount, valCount, printing]
          rw [hout]
          simp [h1, hfin, lines]
      · rw [if_neg h1] at h
        by_cases h2 : s.mainPc = 2
        · rw [if_pos h2] at h
          injection h with h
          subst h
          refine ⟨?_, ?_, ?_, ?_, ?_, ?_, ?_, ?_⟩ <;> dsimp only
          · exact htot
          · exact hpos
          · exact hcnt
          · exact hreg
          · omega
          · intro hlt; omega
          · intro hge; omega
          · rw [hout]
            simp [h2]
        · rw [if_neg h2] at h
          by_cases h3 : s.mainPc = 3
          · rw [if_pos h3] at h
            split at h
            · rename_i hc
              obtain ⟨hw0, hcse⟩ := hc
              injection h with h
              subst h
              rw [hcse] at htot hcnt hout
              simp only [csCount, storeCount, valCount, printing] at htot hcnt hout
              refine ⟨?_, ?_, ?_, ?_, ?_, ?_, ?_, ?_⟩ <;> dsimp only
              · simpa [csCount, hcse] using htot
              · intro c hc'; rw [hcse] at hc'; exact absurd hc' (by simp)
              · simpa [storeCount, hcse] using hcnt
              · intro c hc'; rw [hcse] at hc'; exact absurd hc' (by simp)
              · omega
              · intro hlt; omega
              · intro _; exact ⟨hcse, hw0⟩
              · rw [hcse]
                simp only [csCount, storeCount, valCount, printing]
                rw [hout]
                simp [h3]
            · exact absurd h (by simp)
          · rw [if_neg h3] at h
            by_cases h4 : s.mainPc = 4
            · rw [if_pos h4] at h
              injection h with h
              subst h
              obtain ⟨hcse, hw0⟩ := hlate (by omega)
              rw [hcse] at htot hcnt hout
              simp only [csCount, storeCount, valCount, printing] at htot hcnt hout
              refine ⟨?_, ?_, ?_, ?_, ?_, ?_, ?_, ?_⟩ <;> dsimp only
              · simpa [csCount, hcse] using htot
              · intro c hc'; rw [hcse] at hc'; exact absurd hc' (by simp)
              · simpa [storeCount, hcse] using hcnt
              · intro c hc'; rw [hcse] at hc'; exact absurd hc' (by simp)
              · omega
              · intro hlt; omega
              · intro _; exact ⟨hcse, hw0⟩
              · rw [hcse]
                simp only [csCount, storeCount, valCount, printing]
                rw [hout]
                simp [h4]
            · rw [if_neg h4] at h
              by_cases h5 : s.mainPc = 5
              · rw [if_pos h5] at h
                injection h with h
                subst h
                obtain ⟨hcse, hw0⟩ := hlate (by omega)
                rw [hcse] at htot hcnt hout
                simp only [csCount, storeCount, valCount, printing] at htot hcnt hout
                refine ⟨?_, ?_, ?_, ?_, ?_, ?_, ?_, ?_⟩ <;> dsimp only
                · simpa [csCount, hcse] using htot
                · intro c hc'; rw [hcse] at hc'; exact absurd hc' (by simp)
                · simpa [storeCount, hcse] using hcnt
                · intro c hc'; rw [hcse] at hc'; exact absurd hc' (by simp)
                · omega
                · intro hlt; omega
                · intro _; exact ⟨hcse, hw0⟩
                · rw [hcse]
                  simp only [csCount, storeCount, valCount, printing]
                  rw [hout]
                  simp [h5]
              · rw [if_neg h5] at h
                exact absurd h (by simp)
theorem crun_inv {n : Nat} {s s' : CState} {acts : List Act} (hI : CInv n s)
    (h : crun s acts = some s') : CInv n s' := by
  induction acts generalizing s with
  | nil =>
    rw [crun] at h
    injection h with h
    subst h
    exact hI
  | cons a rest ih =>
    rw [crun] at h
    cases hstep : cstep s a with
    | none => rw [hstep] at h; exact absurd h (by simp)
    | some s₁ =>
      rw [hstep] at h
      exact ih (cstep_inv hI hstep) h

theorem crun_cinit_inv {n : Nat} {s : CState} {acts : List Act}
    (h : crun (cinit n) acts = some s) : CInv n s :=
  crun_inv (cinit_inv n) h

theorem done_not_mem_lines (k : Nat) : Tok.done ∉ lines k := by
  induction k with
  | zero => simp [lines]
  | succ k ih => simp [lines, ih]

theorem start_not_mem_lines (k : Nat) : Tok.start ∉ lines k := by
  induction k with
  | zero => simp [lines]
  | succ k ih => simp [lines, ih]

theorem payload_dfold {τ : Type} (op : String → Nat) (dur : String → τ)
    (l : List String) (k : String) :
    payload (dfold op dur l []) k = if k ∈ l then some (op k) else none := by
  rw [payload, dlookup_dfold]
  by_cases hk : k ∈ l <;> simp [hk, dlookup]

theorem mem_dkeys_dfold {τ : Type} (op : String → Nat) (dur : String → τ)
    (l : List String) (k : String) :
    k ∈ dkeys (dfold op dur l []) ↔ k ∈ l := by
  rw [← not_iff_not, ← dlookup_eq_none_iff, dlookup_dfold]
  by_cases hk : k ∈ l <;> simp [hk, dlookup]

/-- Folding the same deterministic operation over any two permutations of
the same batch yields set-equal maps, timings apart. -/
theorem setEqv_dfold {τ₁ τ₂ : Type} (op : String → Nat) (dur₁ : String → τ₁)
    (dur₂ : String → τ₂) (l₁ l₂ : List String) (hp : l₁.Perm l₂) :
    setEqv (dfold op dur₁ l₁ []) (dfold op dur₂ l₂ []) := by
  constructor
  · intro k
    rw [mem_dkeys_dfold, mem_dkeys_dfold]
    exact hp.mem_iff
  · intro k
    rw [payload_dfold, payload_dfold]
    by_cases hk : k ∈ l₁
    · rw [if_pos hk, if_pos (hp.mem_iff.mp hk)]
    · rw [if_neg hk, if_neg (fun hh => hk (hp.mem_iff.mpr hh))]

/-- C1: for every batch of unique keys and every deterministic fetch
operation (fixed payload size per key, timings free), all strategies —
sequential, process-pool (`multiprocess`, `multiprocess2`,
`multiprocess3`), thread-pool (`multithread`) and cooperative-async
(`coroutine`, `coroutine2`) — return set-equal result maps: the same key
set, each key mapped to the same payload size; only the elapsed-time values
and the maps' iteration order may differ.  The nondeterministic completion
orders of the parallel strategies are arbitrary permutations of the
batch. -/
theorem claim_strategies_set_equal {τ₁ τ₂ : Type}
    (batch order₁ order₂ order₃ order₄ : List String) (op : String → Nat)
    (dur₁ : String → τ₁) (dur₂ : String → τ₂) (hnd : batch.Nodup)
    (h₁ : order₁.Perm batch) (h₂ : order₂.Perm batch) (h₃ : order₃.Perm batch)
    (h₄ : order₄.Perm batch) :
    setEqv (multithread batch op dur₂) (sequential batch op dur₁) ∧
    setEqv (multiprocess (order₁.map (fetch_site op dur₂)))
      (sequential batch op dur₁) ∧
    setEqv (multiprocess2 order₂ op dur₂) (sequential batch op dur₁) ∧
    setEqv (multiprocess3 batch op dur₂) (sequential batch op dur₁) ∧
    setEqv (coroutine order₃ op dur₂) (sequential batch op dur₁) ∧
    setEqv (coroutine2 order₄ op dur₂) (sequential batch op dur₁) := by
  rw [sequential_eq_dfold, multithread_eq_dfold, multiprocess_map_eq_dfold,
    multiprocess2_eq_dfold, multiprocess3_eq_dfold, coroutine_eq_dfold,
    coroutine2_eq_dfold]
  exact ⟨setEqv_dfold op dur₂ dur₁ batch batch (List.Perm.refl batch),
    setEqv_dfold op dur₂ dur₁ order₁ batch h₁,
    setEqv_dfold op dur₂ dur₁ order₂ batch h₂,
    setEqv_dfold op dur₂ dur₁ batch batch (List.Perm.refl batch),
    setEqv_dfold op dur₂ dur₁ order₃ batch h₃,
    setEqv_dfold op dur₂ dur₁ order₄ batch h₄⟩

theorem claim_strategies_set_equal_witness :
    (["a", "bb", "ccc"] : List String).Nodup ∧
    (["bb", "a", "ccc"] : List String).Perm ["a", "bb", "ccc"] ∧
    setEqv (multithread ["a", "bb", "ccc"] stubOp otherDur)
      (sequential ["a", "bb", "ccc"] stubOp zeroDur) :=
  ⟨by decide, by decide,
    (claim_strategies_set_equal ["a", "bb", "ccc"] ["bb", "a", "ccc"]
      ["ccc", "bb", "a"] ["bb", "ccc", "a"] ["a", "ccc", "bb"] stubOp zeroDur
      otherDur (by decide) (by decide) (by decide) (by decide) (by decide)).1⟩

/-- C2 counterexample: submitting the duplicate-key batch `["a", "a"]` with
the stub operation raises no duplicate-key error; both the sequential and
the async strategy silently merge the duplicates into a 1-entry map,
contradicting the claim that a duplicate-key error is produced and a
silently-merged map never is. -/
theorem claim_dup_keys_counterexample :
    sequential ["a", "a"] stubOp zeroDur = [("a", 1, 0)] ∧
    (dkeys (sequential ["a", "a"] stubOp zeroDur)).length = 1 ∧
    coroutine2 ["a", "a"] stubOp zeroDur = [("a", 1, 0)] := by decide

/-- C2 amended: submitting a batch with duplicate keys yields no error at
all; every strategy silently overwrites the duplicate entries, returning a
map with one entry per distinct key (in first-occurrence order), each key
still mapped to its deterministic fetch value. -/
theorem claim_dup_keys_amended {τ : Type} (batch order : List String)
    (op : String → Nat) (dur : String → τ) (ho : order.Perm batch) :
    dkeys (sequential batch op dur) = pyKeys batch ∧
    dkeys (coroutine2 order op dur) = pyKeys order ∧
    (∀ k ∈ batch, dlookup (sequential batch op dur) k = some (op k, dur k)) ∧
    (∀ k ∈ batch, dlookup (coroutine2 order op dur) k = some (op k, dur k)) := by
  refine ⟨?_, ?_, ?_, ?_⟩
  · rw [sequential_eq_dfold, dkeys_dfold]
    simp [pyKeys, dkeys]
  · rw [coroutine2_eq_dfold, dkeys_dfold]
    simp [pyKeys, dkeys]
  · intro k hk
    rw [sequential_eq_dfold, dlookup_dfold, if_pos hk]
  · intro k hk
    rw [coroutine2_eq_dfold, dlookup_dfold, if_pos (ho.mem_iff.mpr hk)]

theorem claim_dup_keys_amended_witness :
    (["a", "a"] : List String).Perm ["a", "a"] ∧
    dkeys (sequential ["a", "a"] stubOp zeroDur) = pyKeys ["a", "a"] :=
  ⟨by decide,
    (claim_dup_keys_amended ["a", "a"] ["a", "a"] stubOp zeroDur (by decide)).1⟩

/-- C3 counterexample: the per-task failure policy is not uniform.  On the
batch `["a", "b"]` with a fetch operation that fails on `"a"`, the
sequential, thread-pool, ordered/unordered bounded-pool and async
strategies all propagate the error to the caller, but the process-per-task
strategy (whose failed child simply dies without queueing a result) returns
a partial success map with no error — so neither the "every strategy
aborts" nor the "no strategy aborts" arm of the claimed disjunction
holds. -/
theorem claim_failure_policy_counterexample :
    ¬ ((isErr (sequentialE ["a", "b"] opf zeroDur) = true ∧
        isErr (multithreadE ["a", "b"] opf zeroDur) = true ∧
        isErr (multiprocess3E ["a", "b"] opf zeroDur) = true ∧
        isErr (multiprocess2E ["b", "a"] opf zeroDur) = true ∧
        isErr (coroutineE ["b", "a"] opf zeroDur) = true ∧
        isErr (multiprocessE [("b", 1, 0)]) = true) ∨
       (isErr (sequentialE ["a", "b"] opf zeroDur) = false ∧
        isErr (multithreadE ["a", "b"] opf zeroDur) = false ∧
        isErr (multiprocess3E ["a", "b"] opf zeroDur) = false ∧
        isErr (multiprocess2E ["b", "a"] opf zeroDur) = false ∧
        isErr (coroutineE ["b", "a"] opf zeroDur) = false ∧
        isErr (multiprocessE [("b", 1, 0)]) = false)) := by decide

/-- C3 amended: the failure policy differs between strategies.  Whenever
some key of the batch fails, the sequential, thread-pool and
ordered/unordered bounded-pool strategies and the async strategies
propagate an error to the caller (aborting the batch), while the
process-per-task strategy returns, without error, the partial map whose
keys are exactly the batch's successful keys. -/
theorem claim_failure_policy_amended {τ : Type} (batch order succ : List String)
    (op? : String → Option Nat) (dur : String → τ) (u : String)
    (hu : u ∈ batch) (hf : op? u = none) (ho : order.Perm batch)
    (hs : succ.Perm (batch.filter (fun v => (op? v).isSome))) :
    sequentialE batch op? dur = .error () ∧
    multithreadE batch op? dur = .error () ∧
    multiprocess3E batch op? dur = .error () ∧
    multiprocess2E order op? dur = .error () ∧
    coroutineE order op? dur = .error () ∧
    ∀ k, k ∈ dkeys (multiprocess
        (succ.map (fetch_site (fun v => (op? v).getD 0) dur))) ↔
      k ∈ batch ∧ (op? k).isSome = true := by
  simp only [sequentialE, multithreadE, multiprocess3E, multiprocess2E,
    coroutineE]
  refine ⟨foldE_error op? dur batch u hu hf [],
    foldE_error op? dur batch u hu hf [],
    foldE_error op? dur batch u hu hf [],
    foldE_error op? dur order u (ho.mem_iff.mpr hu) hf [],
    foldE_error op? dur order u (ho.mem_iff.mpr hu) hf [], ?_⟩
  intro k
  rw [multiprocess_map_eq_dfold, mem_dkeys_dfold, hs.mem_iff]
  simp only [List.mem_filter]

theorem claim_failure_policy_amended_witness :
    ("a" : String) ∈ (["a", "b"] : List String) ∧ opf "a" = none ∧
    sequentialE ["a", "b"] opf zeroDur = .error () :=
  ⟨by decide, by decide,
    (claim_failure_policy_amended ["a", "b"] ["b", "a"] ["b"] opf zeroDur "a"
      (by decide) (by decide) (by decide) (by decide)).1⟩

/-- C5 counterexample: the claim quantifies over every batch, but on the
duplicate-key batch `["a", "a"]` the sequential strategy's result map
iterates as `["a"]`, not in the batch's input order `["a", "a"]`. -/
theorem claim_seq_order_counterexample :
    dkeys (sequential ["a", "a"] stubOp zeroDur) ≠ ["a", "a"] := by decide

/-- C5 amended: for every batch of *unique* keys, the sequential strategy —
which invokes each operation synchronously and inserts its result before
starting the next — returns a map whose iteration order equals the batch's
input order. -/
theorem claim_seq_order_amended {τ : Type} (batch : List String)
    (op : String → Nat) (dur : String → τ) (hnd : batch.Nodup) :
    dkeys (sequential batch op dur) = batch := by
  rw [sequential_eq_dfold, dkeys_dfold]
  have h0 : dkeys ([] : Dict τ) = [] := rfl
  rw [h0]
  exact pyKeys_of_nodup batch hnd

theorem claim_seq_order_amended_witness :
    (["a", "bb", "ccc"] : List String).Nodup ∧
    dkeys (sequential ["a", "bb", "ccc"] stubOp zeroDur) = ["a", "bb", "ccc"] :=
  ⟨by decide,
    claim_seq_order_amended ["a", "bb", "ccc"] stubOp zeroDur (by decide)⟩

/-- C6: for every batch and deterministic non-failing fetch operation, the
bounded pool's unordered-as-completed mode (`multiprocess2`, fed results in
an arbitrary completion order) and its ordered-by-submission mode
(`multiprocess3`) produce the same final map — equal key sets, equal
payload values, timing fields ignored. -/
theorem claim_pool_modes_agree {τ₁ τ₂ : Type} (batch arrival : List String)
    (op : String → Nat) (dur₁ : String → τ₁) (dur₂ : String → τ₂)
    (hp : arrival.Perm batch) :
    setEqv (multiprocess2 arrival op dur₁) (multiprocess3 batch op dur₂) := by
  rw [multiprocess2_eq_dfold, multiprocess3_eq_dfold]
  exact setEqv_dfold op dur₁ dur₂ arrival batch hp

theorem claim_pool_modes_agree_witness :
    (["bb", "a"] : List String).Perm ["a", "bb"] ∧
    setEqv (multiprocess2 ["bb", "a"] stubOp zeroDur)
      (multiprocess3 ["a", "bb"] stubOp otherDur) :=
  ⟨by decide,
    claim_pool_modes_agree ["a", "bb"] ["bb", "a"] stubOp zeroDur otherDur
      (by decide)⟩

/-- C9: running the same batch twice with the same deterministic stub fetch
operation yields identical result maps, ignoring timing fields — for every
strategy, even though the two runs' completion orders and elapsed times may
differ. -/
theorem claim_idempotent {τ₁ τ₂ : Type}
    (batch order₁ order₂ order₃ order₄ order₅ order₆ : List String)
    (op : String → Nat) (dur₁ : String → τ₁) (dur₂ : String → τ₂)
    (h₁ : order₁.Perm batch) (h₂ : order₂.Perm batch) (h₃ : order₃.Perm batch)
    (h₄ : order₄.Perm batch) (h₅ : order₅.Perm batch)
    (h₆ : order₆.Perm batch) :
    setEqv (sequential batch op dur₁) (sequential batch op dur₂) ∧
    setEqv (multithread batch op dur₁) (multithread batch op dur₂) ∧
    setEqv (multiprocess3 batch op dur₁) (multiprocess3 batch op dur₂) ∧
    setEqv (multiprocess (order₁.map (fetch_site op dur₁)))
      (multiprocess (order₂.map (fetch_site op dur₂))) ∧
    setEqv (multiprocess2 order₃ op dur₁) (multiprocess2 order₄ op dur₂) ∧
    setEqv (coroutine order₅ op dur₁) (coroutine order₆ op dur₂) ∧
    setEqv (coroutine2 order₅ op dur₁) (coroutine2 order₆ op dur₂) := by
  rw [sequential_eq_dfold, sequential_eq_dfold, multithread_eq_dfold,
    multithread_eq_dfold, multiprocess3_eq_dfold, multiprocess3_eq_dfold,
    multiprocess_map_eq_dfold, multiprocess_map_eq_dfold,
    multiprocess2_eq_dfold, multiprocess2_eq_dfold, coroutine_eq_dfold,
    coroutine_eq_dfold, coroutine2_eq_dfold, coroutine2_eq_dfold]
  exact ⟨setEqv_dfold op dur₁ dur₂ batch batch (List.Perm.refl batch),
    setEqv_dfold op dur₁ dur₂ batch batch (List.Perm.refl batch),
    setEqv_dfold op dur₁ dur₂ batch batch (List.Perm.refl batch),
    setEqv_dfold op dur₁ dur₂ order₁ order₂ (h₁.trans h₂.symm),
    setEqv_dfold op dur₁ dur₂ order₃ order₄ (h₃.trans h₄.symm),
    setEqv_dfold op dur₁ dur₂ order₅ order₆ (h₅.trans h₆.symm),
    setEqv_dfold op dur₁ dur₂ order₅ order₆ (h₅.trans h₆.symm)⟩

theorem claim_idempotent_witness :
    (["bb", "a"] : List String).Perm ["a", "bb"] ∧
    setEqv (sequential ["a", "bb"] stubOp zeroDur)
      (sequential ["a", "bb"] stubOp otherDur) :=
  ⟨by decide,
    (claim_idempotent ["a", "bb"] ["bb", "a"] ["a", "bb"] ["bb", "a"]
      ["a", "bb"] ["bb", "a"] ["a", "bb"] stubOp zeroDur otherDur (by decide)
      (by decide) (by decide) (by decide) (by decide) (by decide)).1⟩

/-- C10: `coroutine` and `coroutine2` close the process-global event loop
before returning.  A first invocation on the fresh loop returns its result
map and leaves the loop closed, and any second invocation of either
function — whatever its arguments — raises an error instead of returning a
map, because `run_until_complete` fails on the closed loop. -/
theorem claim_loop_closed {τ₁ τ₂ : Type} (order order₂ : List String)
    (op op₂ : String → Nat) (dur : String → τ₁) (dur₂ : String → τ₂) :
    coroutineS order op dur .fresh = (.ok (coroutine order op dur), .closed) ∧
    coroutine2S order op dur .fresh =
      (.ok (coroutine2 order op dur), .closed) ∧
    (coroutineS order₂ op₂ dur₂ (coroutineS order op dur .fresh).2).1 =
      .error () ∧
    (coroutine2S order₂ op₂ dur₂ (coroutine2S order op dur .fresh).2).1 =
      .error () ∧
    (coroutine2S order₂ op₂ dur₂ (coroutineS order op dur .fresh).2).1 =
      .error () ∧
    (coroutineS order₂ op₂ dur₂ (coroutine2S order op dur .fresh).2).1 =
      .error () :=
  ⟨rfl, rfl, rfl, rfl, rfl, rfl⟩

/-- C4: in the shared-counter demo with `n` workers, under every
interleaving in which all workers have finished, each worker has
incremented the counter exactly once under the counter lock and the final
counter value is exactly `n` — no update is ever lost. -/
theorem claim_counter_final (n : Nat) (acts : List Act) (s : CState)
    (h : crun (cinit n) acts = some s) (hw : s.waiting = 0)
    (hcs : s.cs = none) : s.counter = n ∧ s.finished = n := by
  obtain ⟨htot, _, hcnt, _, _, _, _, _⟩ := crun_cinit_inv h
  rw [hw, hcs] at htot
  simp only [csCount] at htot
  rw [hcs] at hcnt
  simp only [storeCount] at hcnt
  omega

theorem claim_counter_final_witness :
    demoFinal.counter = 10 ∧ demoFinal.finished = 10 :=
  claim_counter_final 10 demoSched demoFinal (by rfl) (by rfl) (by rfl)

/-- C7: in every reachable state of the demo, if any worker has started
(fewer than `n` workers still waiting, a worker in its critical section, or
a worker finished) then the "starting threads" message has already been
printed; and if the "done!" message has been printed then every one of the
`n` workers has terminated — main joins them all before printing it. -/
theorem claim_start_done_order (n : Nat) (acts : List Act) (s : CState)
    (h : crun (cinit n) acts = some s) :
    (s.waiting < n ∨ s.cs ≠ none ∨ 0 < s.finished → Tok.start ∈ s.output) ∧
    (Tok.done ∈ s.output →
      s.waiting = 0 ∧ s.cs = none ∧ s.finished = n) := by
  obtain ⟨htot, hpos, hcnt, hreg, hmain, hearly, hlate, hout⟩ :=
    crun_cinit_inv h
  constructor
  · intro hstarted
    have hm3 : 3 ≤ s.mainPc := by
      by_contra hm
      obtain ⟨hcse, hfin⟩ := hearly (by omega)
      rcases hstarted with hw | hc | hf
      · rw [hcse] at htot
        simp only [csCount] at htot
        omega
      · exact hc hcse
      · omega
    rw [hout]
    simp [show 2 ≤ s.mainPc by omega]
  · intro hdone
    have h5 : 5 ≤ s.mainPc := by
      by_contra h5
      rw [hout, if_neg h5] at hdone
      simp only [List.append_nil, List.mem_append] at hdone
      rcases hdone with (hd | hd) | hd
      · split at hd <;> simp at hd
      · exact done_not_mem_lines _ hd
      · rcases hcs : s.cs with _ | c
        · rw [hcs] at hd
          simp [printing] at hd
        · rw [hcs] at hd
          simp only [printing] at hd
          split at hd <;> simp at hd
    obtain ⟨hcse, hw0⟩ := hlate (by omega)
    have hfin : s.finished = n := by
      rw [hcse, hw0] at htot
      simpa [csCount] using htot
    exact ⟨hw0, hcse, hfin⟩

theorem claim_start_done_order_witness :
    Tok.start ∈ demoFinal.output ∧
    (demoFinal.waiting = 0 ∧ demoFinal.cs = none ∧ demoFinal.finished = 10) :=
  ⟨(claim_start_done_order 10 demoSched demoFinal (by rfl)).1
      (Or.inl (by decide)),
    (claim_start_done_order 10 demoSched demoFinal (by rfl)).2 (by decide)⟩

/-- C8: when the demo terminates (main has printed "done!" and exited),
the console output is exactly the start message, then the `n` counter
lines with the strictly increasing values `1, …, n` — each line's text part
immediately followed by its own value, so no two lines interleave — and
finally the done message. -/
theorem claim_output_shape (n : Nat) (acts : List Act) (s : CState)
    (h : crun (cinit n) acts = some s) (hm : s.mainPc = 6) :
    s.output = Tok.start :: (lines n ++ [Tok.done]) := by
  obtain ⟨htot, _, _, _, _, _, hlate, hout⟩ := crun_cinit_inv h
  obtain ⟨hcse, hw0⟩ := hlate (by omega)
  have hfin : s.finished = n := by
    rw [hcse, hw0] at htot
    simpa [csCount] using htot
  rw [hout, hcse, hm, hfin]
  simp [printing, valCount]

theorem claim_output_shape_witness :
    demoFinal.output = Tok.start :: (lines 10 ++ [Tok.done]) :=
  claim_output_shape 10 demoSched demoFinal (by rfl) (by rfl)

end PyTalk


